import Mathlib

/-
Verification of the WechatferryAgent dispatch/throttling layer and the
payload-decoding read paths (src/packages/agent/src/agent.ts).

The agent intercepts, via a Proxy get handler, every property access whose
name starts with "send" (when `safe` is set), and routes the call through
two rate limiters built with the p-throttle library: a global limiter
(limit 40 per 60000 ms window) and a lazily created per-recipient limiter
(limit 1, interval drawn by randomInt(1000, 3000) at first use).

The p-throttle library itself is an external dependency whose sources are
not part of this repository; its fixed-window admission behaviour is
modelled here from the specification of the Fixed-Window Limiter
(sections 3 and 4.1 of the spec): state is a pair (windowStart,
usedInWindow); a call arriving inside the current window is started
immediately while usedInWindow < capacity; a call arriving when the quota
is exhausted is started at the next window boundary; a call arriving after
the current window has elapsed rolls the window forward along the
limiter's own fixed boundary grid (multiples of the window duration) and
is started immediately in the fresh window.  Queued calls are drained in
FIFO order at window boundaries, which at the schedule level means the
start time of an over-quota call is the next boundary.
-/

/-- Limiter state: (windowStart, usedInWindow). -/
abbrev LState := Nat × Nat

/-- Modelled from the spec: one admission step of a Fixed-Window Limiter
(spec sections 3 and 4.1; the concrete implementation is the external
p-throttle dependency, not part of the provided sources).  Given the
current state and the time `a` at which a call is submitted, returns the
successor state and the time at which the call is started. -/
def fixedWindowStep (cap T : Nat) (st : LState) (a : Nat) : LState × Nat :=
  if a < st.1 then
    if st.2 < cap then ((st.1, st.2 + 1), st.1)
    else ((st.1 + T, 1), st.1 + T)
  else if a < st.1 + T then
    if st.2 < cap then ((st.1, st.2 + 1), a)
    else ((st.1 + T, 1), st.1 + T)
  else
    ((a - (a - st.1) % T, 1), a)

/-- Start times produced by a Fixed-Window Limiter fed the given
submission times, in order. -/
def fixedWindowStarts (cap T : Nat) : LState → List Nat → List Nat
  | _, [] => []
  | st, a :: as =>
    (fixedWindowStep cap T st a).2 ::
      fixedWindowStarts cap T (fixedWindowStep cap T st a).1 as

/-- Number of elements of `l` falling in the half-open window
[lo, lo + T). -/
def countIn (T lo : Nat) (l : List Nat) : Nat :=
  l.countP (fun s => decide (lo ≤ s ∧ s < lo + T))

lemma countIn_nil (T lo : Nat) : countIn T lo [] = 0 := rfl

lemma countIn_cons (T lo s : Nat) (l : List Nat) :
    countIn T lo (s :: l)
      = countIn T lo l + (if lo ≤ s ∧ s < lo + T then 1 else 0) := by
  simp [countIn, List.countP_cons]

lemma countIn_zero (T lo : Nat) (l : List Nat)
    (h : ∀ s ∈ l, lo + T ≤ s) : countIn T lo l = 0 := by
  simp only [countIn, List.countP_eq_zero]
  intro s hs
  have := h s hs
  simp only [decide_eq_true_eq]
  omega

/-- Two windows of length T, both anchored on the grid of multiples of T,
that contain a common point coincide. -/
lemma window_lo_unique (T s lo lo2 : Nat) (hT : 0 < T)
    (h0 : lo % T = 0) (h02 : lo2 % T = 0)
    (h1 : lo ≤ s) (h2 : s < lo + T) (h3 : lo2 ≤ s) (h4 : s < lo2 + T) :
    lo = lo2 := by
  rcases Nat.le_total lo lo2 with h | h
  · have hd : T ∣ (lo2 - lo) :=
      Nat.dvd_sub' (Nat.dvd_of_mod_eq_zero h02) (Nat.dvd_of_mod_eq_zero h0)
    have hlt : lo2 - lo < T := by omega
    have h5 : lo2 - lo = 0 := Nat.eq_zero_of_dvd_of_lt hd hlt
    omega
  · have hd : T ∣ (lo - lo2) :=
      Nat.dvd_sub' (Nat.dvd_of_mod_eq_zero h0) (Nat.dvd_of_mod_eq_zero h02)
    have hlt : lo - lo2 < T := by omega
    have h5 : lo - lo2 = 0 := Nat.eq_zero_of_dvd_of_lt hd hlt
    omega

/-- Case analysis of one limiter step, keeping only the facts the window
invariant needs. -/
lemma fixedWindowStep_cases (cap T ws used a : Nat) (hT : 0 < T)
    (hws : ws % T = 0) :
    (used < cap ∧ ∃ s, fixedWindowStep cap T (ws, used) a = ((ws, used + 1), s)
        ∧ ws ≤ s ∧ s < ws + T)
  ∨ (¬ used < cap ∧ fixedWindowStep cap T (ws, used) a = ((ws + T, 1), ws + T))
  ∨ (∃ W, fixedWindowStep cap T (ws, used) a = ((W, 1), a)
        ∧ W % T = 0 ∧ ws + T ≤ W ∧ W ≤ a ∧ a < W + T) := by
  by_cases h1 : a < ws
  · by_cases h2 : used < cap
    · exact Or.inl ⟨h2, ws, by simp [fixedWindowStep, h1, h2], Nat.le_refl ws, by omega⟩
    · exact Or.inr (Or.inl ⟨h2, by simp [fixedWindowStep, h1, h2]⟩)
  · by_cases h3 : a < ws + T
    · by_cases h2 : used < cap
      · exact Or.inl ⟨h2, a, by simp [fixedWindowStep, h1, h2, h3], by omega, h3⟩
      · exact Or.inr (Or.inl ⟨h2, by simp [fixedWindowStep, h1, h2, h3]⟩)
    · have hle : ws + T ≤ a := Nat.le_of_not_lt h3
      have hr : (a - ws) % T < T := Nat.mod_lt _ hT
      have hrle : (a - ws) % T ≤ a - ws := Nat.mod_le _ _
      have hq : 1 ≤ (a - ws) / T := (Nat.one_le_div_iff hT).mpr (by omega)
      obtain ⟨P, hPdef⟩ : ∃ P, P = T * ((a - ws) / T) := ⟨_, rfl⟩
      have hPmod : P + (a - ws) % T = a - ws := by
        rw [hPdef]
        exact Nat.div_add_mod _ _
      have hPge : T ≤ P := by
        rw [hPdef]
        calc T = T * 1 := (Nat.mul_one T).symm
        _ ≤ T * ((a - ws) / T) := Nat.mul_le_mul_left T hq
      have hWmod : (a - (a - ws) % T) % T = 0 := by
        have hW2 : a - (a - ws) % T = ws + T * ((a - ws) / T) := by
          rw [← hPdef]
          omega
        rw [hW2, Nat.add_mul_mod_self_left]
        exact hws
      exact Or.inr (Or.inr ⟨a - (a - ws) % T, by simp [fixedWindowStep, h1, h3],
        hWmod, by omega, by omega, by omega⟩)

/-- Every start time produced from a state whose window begins at `ws` is
at least `ws`. -/
lemma fixedWindowStarts_lb (cap T : Nat) :
    ∀ (as : List Nat) (ws used s : Nat),
      s ∈ fixedWindowStarts cap T (ws, used) as → ws ≤ s := by
  intro as
  induction as with
  | nil =>
    intro ws used s hs
    simp [fixedWindowStarts] at hs
  | cons a rest ih =>
    intro ws used s hs
    by_cases h1 : a < ws
    · by_cases h2 : used < cap
      · simp only [fixedWindowStarts, fixedWindowStep, h1, h2, if_true, if_pos,
          List.mem_cons] at hs
        rcases hs with hs | hs
        · omega
        · exact ih ws (used + 1) s hs
      · simp only [fixedWindowStarts, fixedWindowStep, h1, h2, if_true, if_false,
          List.mem_cons] at hs
        rcases hs with hs | hs
        · omega
        · have := ih (ws + T) 1 s hs
          omega
    · by_cases h3 : a < ws + T
      · by_cases h2 : used < cap
        · simp only [fixedWindowStarts, fixedWindowStep, h1, h2, h3, if_true, if_false,
            List.mem_cons] at hs
          rcases hs with hs | hs
          · omega
          · exact ih ws (used + 1) s hs
        · simp only [fixedWindowStarts, fixedWindowStep, h1, h2, h3, if_true, if_false,
            List.mem_cons] at hs
          rcases hs with hs | hs
          · omega
          · have := ih (ws + T) 1 s hs
            omega
      · simp only [fixedWindowStarts, fixedWindowStep, h1, h3, if_false,
          List.mem_cons] at hs
        rcases hs with hs | hs
        · omega
        · have := ih (a - (a - ws) % T) 1 s hs
          have hr : (a - ws) % T ≤ a - ws := Nat.mod_le _ _
          omega

/-- Window invariant of the Fixed-Window Limiter: in every window
[lo, lo + T) on the limiter's own boundary grid, at most `cap` calls are
started, whatever the submission times. -/
lemma fixedWindowStarts_window_bound (cap T : Nat) (hcap : 0 < cap) (hT : 0 < T) :
    ∀ (as : List Nat) (ws used lo : Nat), ws % T = 0 → used ≤ cap → lo % T = 0 →
      countIn T lo (fixedWindowStarts cap T (ws, used) as)
        + (if lo = ws then used else 0) ≤ cap := by
  intro as
  induction as with
  | nil =>
    intro ws used lo hws hused hlo
    simp only [fixedWindowStarts, countIn_nil, Nat.zero_add]
    split <;> omega
  | cons a rest ih =>
    intro ws used lo hws hused hlo
    rcases fixedWindowStep_cases cap T ws used a hT hws with
      ⟨h2, s, hstep, hs1, hs2⟩ | ⟨h2, hstep⟩ | ⟨W, hstep, hW0, hW1, hW2, hW3⟩
    · -- call started inside the current window; state (ws, used + 1)
      have key : fixedWindowStarts cap T (ws, used) (a :: rest)
          = s :: fixedWindowStarts cap T (ws, used + 1) rest := by
        simp [fixedWindowStarts, hstep]
      rw [key, countIn_cons]
      have ihr := ih ws (used + 1) lo hws (by omega) hlo
      by_cases hjw : lo = ws
      · rw [if_pos (by omega : lo ≤ s ∧ s < lo + T), if_pos hjw]
        rw [if_pos hjw] at ihr
        omega
      · have hind : ¬ (lo ≤ s ∧ s < lo + T) := by
          intro hcon
          exact hjw (window_lo_unique T s lo ws hT hlo hws hcon.1 hcon.2 hs1 hs2)
        rw [if_neg hind, if_neg hjw]
        rw [if_neg hjw] at ihr
        omega
    · -- quota exhausted: call started at the next boundary; state (ws + T, 1)
      have key : fixedWindowStarts cap T (ws, used) (a :: rest)
          = (ws + T) :: fixedWindowStarts cap T (ws + T, 1) rest := by
        simp [fixedWindowStarts, hstep]
      rw [key, countIn_cons]
      have hws2 : (ws + T) % T = 0 := by
        rw [Nat.add_mod_right]
        exact hws
      have ihr := ih (ws + T) 1 lo hws2 hcap hlo
      by_cases hjw2 : lo = ws + T
      · have hjw : ¬ lo = ws := by omega
        rw [if_pos (by omega : lo ≤ ws + T ∧ ws + T < lo + T), if_neg hjw]
        rw [if_pos hjw2] at ihr
        omega
      · have hind : ¬ (lo ≤ ws + T ∧ ws + T < lo + T) := by
          intro hcon
          exact hjw2 (window_lo_unique T (ws + T) lo (ws + T) hT hlo hws2
            hcon.1 hcon.2 (Nat.le_refl _) (by omega))
        rw [if_neg hind]
        rw [if_neg hjw2] at ihr
        by_cases hjw : lo = ws
        · rw [if_pos hjw]
          have hzero : countIn T lo (fixedWindowStarts cap T (ws + T, 1) rest) = 0 := by
            apply countIn_zero
            intro s hs
            have := fixedWindowStarts_lb cap T rest (ws + T) 1 s hs
            omega
          omega
        · rw [if_neg hjw]
          omega
    · -- window rolled forward to W; call started at `a`; state (W, 1)
      have key : fixedWindowStarts cap T (ws, used) (a :: rest)
          = a :: fixedWindowStarts cap T (W, 1) rest := by
        simp [fixedWindowStarts, hstep]
      rw [key, countIn_cons]
      have ihr := ih W 1 lo hW0 hcap hlo
      by_cases hjW : lo = W
      · have hjw : ¬ lo = ws := by omega
        rw [if_pos (by omega : lo ≤ a ∧ a < lo + T), if_neg hjw]
        rw [if_pos hjW] at ihr
        omega
      · have hind : ¬ (lo ≤ a ∧ a < lo + T) := by
          intro hcon
          exact hjW (window_lo_unique T a lo W hT hlo hW0 hcon.1 hcon.2 hW2 hW3)
        rw [if_neg hind]
        rw [if_neg hjW] at ihr
        by_cases hjw : lo = ws
        · rw [if_pos hjw]
          have hzero : countIn T lo (fixedWindowStarts cap T (W, 1) rest) = 0 := by
            apply countIn_zero
            intro s hs
            have := fixedWindowStarts_lb cap T rest W 1 s hs
            omega
          omega
        · rw [if_neg hjw]
          omega

/-
The dispatch layer of WechatferryAgent (agent.ts).  Times are in
milliseconds on an abstract clock.  A send call carries the recipient
identifier (first argument of every send-classified operation), the time
at which the caller invokes the proxied operation, and the value that
randomInt(1000, 3000) would return if a throttle has to be created for a
recipient first observed by this call.
-/

/-- Configuration of the global limiter, from agent.ts lines 18-21:
pThrottle({ limit: 40, interval: 60000 }). -/
def throttleGlobalLimit : Nat := 40

/-- Window duration of the global limiter (60 s), agent.ts line 20. -/
def throttleGlobalInterval : Nat := 60000

/-- One invocation of a send-classified operation in safe mode. -/
structure SendCall where
  id : String
  arrival : Nat
  draw : Nat

/-- A cached per-recipient throttle: the pThrottle configuration created in
getThrottleForRecipient (limit 1, interval = randomInt(1000, 3000)) plus
the limiter state held inside the pThrottle closure. -/
structure RThrottle where
  limit : Nat
  interval : Nat
  st : LState

/-- The throttling state owned by one WechatferryAgent: the global
limiter's state and the recipientThrottles record (agent.ts line 23). -/
structure AgentSys where
  globalSt : LState
  recips : String → Option RThrottle

/-- Translation of getThrottleForRecipient (agent.ts lines 119-129): return
the cached throttle for the recipient, or create one with limit 1 and the
freshly drawn interval and cache it.  `draw` stands for the value returned
by randomInt(1000, 3000). -/
def getThrottleForRecipient (recipientThrottles : String → Option RThrottle)
    (recipient : String) (draw : Nat) : (String → Option RThrottle) × RThrottle :=
  match recipientThrottles recipient with
  | some throttle => (recipientThrottles, throttle)
  | none =>
    let throttle : RThrottle := ⟨1, draw, (0, 0)⟩
    (fun x => if x = recipient then some throttle else recipientThrottles x, throttle)

/-- Translation of the Proxy get handler's send path (agent.ts lines
35-44) at the timing level: the call is submitted to the global limiter at
its arrival time; once the global limiter admits it (time g), the inner
closure runs and submits the call to the recipient's throttle; the
underlying operation starts when the recipient throttle admits it (time e).
Returns the new state and the triple (recipient, global admission time,
execution start time). -/
def stepSend (sys : AgentSys) (c : SendCall) : AgentSys × (String × Nat × Nat) :=
  let g := fixedWindowStep throttleGlobalLimit throttleGlobalInterval sys.globalSt c.arrival
  let lk := getThrottleForRecipient sys.recips c.id c.draw
  let rt := lk.2
  let r := fixedWindowStep rt.limit rt.interval rt.st g.2
  (⟨g.1, fun x => if x = c.id then some ⟨rt.limit, rt.interval, r.1⟩ else lk.1 x⟩,
    (c.id, g.2, r.2))

/-- Trace of a sequence of send calls processed in arrival order:
one (recipient, global admission time, execution start time) per call. -/
def runSends (sys : AgentSys) : List SendCall → List (String × Nat × Nat)
  | [] => []
  | c :: cs => (stepSend sys c).2 :: runSends (stepSend sys c).1 cs

/-- Final throttling state after a sequence of send calls. -/
def runSendsSt (sys : AgentSys) : List SendCall → AgentSys
  | [] => sys
  | c :: cs => runSendsSt (stepSend sys c).1 cs

/-- State of a freshly constructed agent: global limiter created at system
start, no recipient throttles. -/
def initSys : AgentSys := ⟨(0, 0), fun _ => none⟩

/-- Execution start times of the calls addressed to recipient `r`, in
order, extracted from a trace. -/
def execsFor (r : String) : List (String × Nat × Nat) → List Nat
  | [] => []
  | e :: tr => if e.1 = r then e.2.2 :: execsFor r tr else execsFor r tr

/-- Global admission times of the calls addressed to recipient `r`: the
times at which those calls are handed to the recipient's throttle. -/
def admitsFor (r : String) (gst : LState) : List SendCall → List Nat
  | [] => []
  | c :: cs =>
    if c.id = r then
      (fixedWindowStep throttleGlobalLimit throttleGlobalInterval gst c.arrival).2
        :: admitsFor r (fixedWindowStep throttleGlobalLimit throttleGlobalInterval gst c.arrival).1 cs
    else admitsFor r (fixedWindowStep throttleGlobalLimit throttleGlobalInterval gst c.arrival).1 cs

/-- The interval drawn for recipient `r` at its first observation within
the given call sequence, if any. -/
def firstDrawFor (r : String) : List SendCall → Option Nat
  | [] => none
  | c :: cs => if c.id = r then some c.draw else firstDrawFor r cs

/-- Checks that consecutive elements of a list differ by at least `d`. -/
def spacedBy (d : Nat) : List Nat → Bool
  | a :: b :: l => decide (a + d ≤ b) && spacedBy d (b :: l)
  | _ => true

/-- Three sends to one recipient whose drawn interval is 1000 ms,
arriving at 0, 1500 and 2000 ms. -/
def c3Sends : List SendCall :=
  [⟨"a", 0, 1000⟩, ⟨"a", 1500, 1000⟩, ⟨"a", 2000, 1000⟩]

/-- Two sends to recipient "a" just before the first global window closes,
followed by forty sends to forty fresh recipients at the start of the
second global window. -/
def c2Sends : List SendCall :=
  ⟨"a", 59999, 1000⟩ :: ⟨"a", 59999, 1000⟩ ::
    (List.range 40).map (fun i => (⟨"b" ++ Nat.repr i, 60000, 1000⟩ : SendCall))

lemma runSends_global :
    ∀ (sends : List SendCall) (sys : AgentSys),
      (runSends sys sends).map (fun e => e.2.1)
        = fixedWindowStarts throttleGlobalLimit throttleGlobalInterval sys.globalSt
            (sends.map (fun c => c.arrival)) := by
  intro sends
  induction sends with
  | nil => intro sys; rfl
  | cons c cs ih =>
    intro sys
    simp only [runSends, List.map_cons, fixedWindowStarts]
    congr 1
    exact ih (stepSend sys c).1

lemma stepSend_recips_other (sys : AgentSys) (c : SendCall) (r : String)
    (h : c.id ≠ r) : ((stepSend sys c).1).recips r = sys.recips r := by
  simp only [stepSend, getThrottleForRecipient]
  cases hc : sys.recips c.id with
  | some rt =>
    simp only [hc]
    rw [if_neg (fun hrc => h hrc.symm)]
  | none =>
    simp only [hc]
    rw [if_neg (fun hrc => h hrc.symm), if_neg (fun hrc => h hrc.symm)]

lemma stepSend_recips_self_some (sys : AgentSys) (c : SendCall) (rt : RThrottle)
    (h : sys.recips c.id = some rt) :
    ((stepSend sys c).1).recips c.id
      = some ⟨rt.limit, rt.interval,
          (fixedWindowStep rt.limit rt.interval rt.st
            (fixedWindowStep throttleGlobalLimit throttleGlobalInterval
              sys.globalSt c.arrival).2).1⟩ := by
  simp [stepSend, getThrottleForRecipient, h]

lemma stepSend_recips_self_none (sys : AgentSys) (c : SendCall)
    (h : sys.recips c.id = none) :
    ((stepSend sys c).1).recips c.id
      = some ⟨1, c.draw,
          (fixedWindowStep 1 c.draw (0, 0)
            (fixedWindowStep throttleGlobalLimit throttleGlobalInterval
              sys.globalSt c.arrival).2).1⟩ := by
  simp [stepSend, getThrottleForRecipient, h]

lemma stepSend_snd_some (sys : AgentSys) (c : SendCall) (rt : RThrottle)
    (h : sys.recips c.id = some rt) :
    (stepSend sys c).2
      = (c.id,
         (fixedWindowStep throttleGlobalLimit throttleGlobalInterval
            sys.globalSt c.arrival).2,
         (fixedWindowStep rt.limit rt.interval rt.st
            (fixedWindowStep throttleGlobalLimit throttleGlobalInterval
              sys.globalSt c.arrival).2).2) := by
  simp [stepSend, getThrottleForRecipient, h]

lemma stepSend_snd_none (sys : AgentSys) (c : SendCall)
    (h : sys.recips c.id = none) :
    (stepSend sys c).2
      = (c.id,
         (fixedWindowStep throttleGlobalLimit throttleGlobalInterval
            sys.globalSt c.arrival).2,
         (fixedWindowStep 1 c.draw (0, 0)
            (fixedWindowStep throttleGlobalLimit throttleGlobalInterval
              sys.globalSt c.arrival).2).2) := by
  simp [stepSend, getThrottleForRecipient, h]

lemma stepSend_globalSt (sys : AgentSys) (c : SendCall) :
    ((stepSend sys c).1).globalSt
      = (fixedWindowStep throttleGlobalLimit throttleGlobalInterval
          sys.globalSt c.arrival).1 := rfl

/-- The execution start times for a recipient already present in the
registry are exactly the start times of that recipient's own fixed-window
limiter fed the global admission times of the sends addressed to it. -/
lemma execsFor_runSends_some :
    ∀ (sends : List SendCall) (sys : AgentSys) (r : String) (rt : RThrottle),
      sys.recips r = some rt →
      execsFor r (runSends sys sends)
        = fixedWindowStarts rt.limit rt.interval rt.st
            (admitsFor r sys.globalSt sends) := by
  intro sends
  induction sends with
  | nil => intro sys r rt h; rfl
  | cons c cs ih =>
    intro sys r rt h
    by_cases hid : c.id = r
    · subst hid
      rw [runSends]
      rw [stepSend_snd_some sys c rt h]
      rw [execsFor, if_pos rfl]
      rw [admitsFor, if_pos rfl, fixedWindowStarts]
      congr 1
      rw [ih (stepSend sys c).1 c.id
            ⟨rt.limit, rt.interval,
              (fixedWindowStep rt.limit rt.interval rt.st
                (fixedWindowStep throttleGlobalLimit throttleGlobalInterval
                  sys.globalSt c.arrival).2).1⟩
            (stepSend_recips_self_some sys c rt h)]
      rfl
    · rw [runSends]
      have hhead : ((stepSend sys c).2).1 = c.id := by
        cases hc : sys.recips c.id with
        | some rt2 => rw [stepSend_snd_some sys c rt2 hc]
        | none => rw [stepSend_snd_none sys c hc]
      rw [execsFor]
      rw [if_neg (by rw [hhead]; exact hid)]
      rw [admitsFor, if_neg hid]
      rw [ih (stepSend sys c).1 r rt (by rw [stepSend_recips_other sys c r hid]; exact h)]
      rfl

/-- The execution start times for a recipient not yet in the registry are
exactly the start times of a fresh limiter (limit 1, interval = the draw
of the first send to that recipient) fed the global admission times of
the sends addressed to it. -/
lemma execsFor_runSends_none :
    ∀ (sends : List SendCall) (sys : AgentSys) (r : String) (d : Nat),
      sys.recips r = none → firstDrawFor r sends = some d →
      execsFor r (runSends sys sends)
        = fixedWindowStarts 1 d (0, 0) (admitsFor r sys.globalSt sends) := by
  intro sends
  induction sends with
  | nil =>
    intro sys r d h hf
    simp [firstDrawFor] at hf
  | cons c cs ih =>
    intro sys r d hnone hf
    by_cases hid : c.id = r
    · subst hid
      rw [firstDrawFor, if_pos rfl] at hf
      have hd : c.draw = d := Option.some.inj hf
      subst hd
      rw [runSends]
      rw [stepSend_snd_none sys c hnone]
      rw [execsFor, if_pos rfl]
      rw [admitsFor, if_pos rfl, fixedWindowStarts]
      congr 1
      rw [execsFor_runSends_some cs (stepSend sys c).1 c.id
            ⟨1, c.draw,
              (fixedWindowStep 1 c.draw (0, 0)
                (fixedWindowStep throttleGlobalLimit throttleGlobalInterval
                  sys.globalSt c.arrival).2).1⟩
            (stepSend_recips_self_none sys c hnone)]
      rfl
    · rw [firstDrawFor, if_neg hid] at hf
      rw [runSends]
      have hhead : ((stepSend sys c).2).1 = c.id := by
        cases hc : sys.recips c.id with
        | some rt2 => rw [stepSend_snd_some sys c rt2 hc]
        | none => rw [stepSend_snd_none sys c hc]
      rw [execsFor]
      rw [if_neg (by rw [hhead]; exact hid)]
      rw [admitsFor, if_neg hid]
      rw [ih (stepSend sys c).1 r d
            (by rw [stepSend_recips_other sys c r hid]; exact hnone) hf]
      rfl

/-- A registry entry's configuration (limit and interval) survives any
further sequence of sends; only the limiter state component evolves. -/
lemma runSendsSt_preserves :
    ∀ (sends : List SendCall) (sys : AgentSys) (r : String) (rt : RThrottle),
      sys.recips r = some rt →
      ∃ st2, (runSendsSt sys sends).recips r
        = some ⟨rt.limit, rt.interval, st2⟩ := by
  intro sends
  induction sends with
  | nil =>
    intro sys r rt h
    exact ⟨rt.st, h⟩
  | cons c cs ih =>
    intro sys r rt h
    rw [runSendsSt]
    by_cases hid : c.id = r
    · subst hid
      exact ih (stepSend sys c).1 c.id
        ⟨rt.limit, rt.interval,
          (fixedWindowStep rt.limit rt.interval rt.st
            (fixedWindowStep throttleGlobalLimit throttleGlobalInterval
              sys.globalSt c.arrival).2).1⟩
        (stepSend_recips_self_some sys c rt h)
    · exact ih (stepSend sys c).1 r rt
        (by rw [stepSend_recips_other sys c r hid]; exact h)

/-
Event-level view of the Proxy get handler (agent.ts lines 32-49): the
interception condition of line 34 and the composition order of lines
38-43, with timing abstracted away.  A computation is a pair of the list
of events it produces, in order, and its result; the result type is kept
abstract so that a failing transport call (an Except value) is covered by
the same definitions.
-/

/-- Events observable while a proxied call runs. -/
inductive Ev where
  | globalAdmit : Ev
  | recipientAdmit : String → Ev
  | execute : Ev
deriving BEq, DecidableEq

/-- Property-name test of agent.ts line 34: prop.startsWith("send"). -/
def sendPrefixed (prop : String) : Bool :=
  "send".data.isPrefixOf prop.data

/-- Interception condition of agent.ts line 34: safe mode is on, the
property is a function and its name starts with "send". -/
def isIntercepted (safeMode : Bool) (isFunctionProp : Bool) (prop : String) : Bool :=
  safeMode && isFunctionProp && sendPrefixed prop

/-- A pThrottle wrapper at the event level: running the wrapped call first
waits for this limiter's admission, then runs the inner call. -/
def throttleWrap {α : Type} (admission : Ev) (call : List Ev × α) : List Ev × α :=
  (admission :: call.1, call.2)

/-- Translation of the Proxy get handler applied to one call (agent.ts
lines 32-49): when intercepted, the returned closure builds
throttledForRecipient (the recipient-throttle wrapper around the
underlying operation) and wraps it in the global limiter, then invokes the
global wrapper; otherwise the underlying operation runs unchanged. -/
def proxyCall {α : Type} (safeMode isFunctionProp : Bool) (prop recipientId : String)
    (underlying : List Ev × α) : List Ev × α :=
  if isIntercepted safeMode isFunctionProp prop then
    throttleWrap Ev.globalAdmit (throttleWrap (Ev.recipientAdmit recipientId) underlying)
  else underlying

/-- Event trace of one intercepted sendText call to "alice". -/
def c1Trace : List Ev :=
  (proxyCall true true "sendText" "alice" ([Ev.execute], (0 : Nat))).1

/-
Construction-time state of a WechatferryAgent (for the immutability of
the safe flag): the constructor (agent.ts lines 25-49) fixes `safe` from
the resolved options; the only fields any later operation mutates are the
throttling state and the login-polling timer.
-/

/-- Mutable state of one WechatferryAgent instance. -/
structure AgentState where
  safe : Bool
  sys : AgentSys
  timer : Option Nat

/-- Operations on the agent that touch its state: a proxied send call,
starting and stopping the login-polling timer, and any of the read-only
query operations. -/
inductive AgentOp where
  | send : SendCall → AgentOp
  | startTimer : Nat → AgentOp
  | stopTimer : AgentOp
  | query : AgentOp

def applyOp (st : AgentState) (op : AgentOp) : AgentState :=
  match op with
  | AgentOp.send c => if st.safe then ⟨st.safe, (stepSend st.sys c).1, st.timer⟩ else st
  | AgentOp.startTimer t => ⟨st.safe, st.sys, some t⟩
  | AgentOp.stopTimer => ⟨st.safe, st.sys, none⟩
  | AgentOp.query => st

def runOps (st : AgentState) : List AgentOp → AgentState
  | [] => st
  | op :: ops => runOps (applyOp st op) ops

/-- The constructor: safe comes from the resolved options (agent.ts lines
27-30); no recipient throttles exist yet; no timer runs. -/
def construct (safeOption : Bool) : AgentState := ⟨safeOption, initSys, none⟩

/-
The sender-extra decoder and its caller.  decodeBytesExtra and
getWxidFromBytesExtra live in src/packages/agent/src/utils.ts, which is
not among the provided sources; they are modelled from the spec
(section 4.4).  Bytes are modelled as naturals.
-/

/-- Modelled from the spec: recursion core of the sender-extra decoder.
The buffer encodes optional fields in a tag-indexed binary layout,
modelled as a sequence of (tag byte, length byte, payload) records; on an
empty or truncated remainder the fields decoded so far are returned and
decoding never fails.  The fuel argument (an upper bound on the number of
records, here the buffer length) only makes the recursion structural. -/
def decodeBytesExtraAux : Nat → List Nat → List (Nat × List Nat)
  | 0, _ => []
  | _, [] => []
  | _, [_] => []
  | fuel + 1, t :: len :: rest =>
    if len ≤ rest.length then
      (t, rest.take len) :: decodeBytesExtraAux fuel (rest.drop len)
    else []

/-- Modelled from the spec: decodeBytesExtra (utils.ts, not under the
provided sources) decodes a BytesExtra buffer into its list of
tag-indexed fields. -/
def decodeBytesExtra (buf : List Nat) : List (Nat × List Nat) :=
  decodeBytesExtraAux buf.length buf

/-- The pinned tag of the field carrying the original sender identifier
(an empirically-derived constant per spec sections 1 and 4.4). -/
def wxidFieldTag : Nat := 1

/-- Modelled from the spec: getWxidFromBytesExtra (utils.ts) selects from
the decoded fields the one carrying the original sender's identifier;
absent when no such field was decoded. -/
def getWxidFromBytesExtra (fields : List (Nat × List Nat)) : Option (List Nat) :=
  (fields.find? (fun f => f.1 == wxidFieldTag)).map (fun f => f.2)

/-- The caller's fallback (agent.ts line 506):
getWxidFromBytesExtra(BytesExtra) || this.wcf.getSelfWxid() — the JS
or-else also replaces an empty identifier by the account's own wxid. -/
def talkerWxidOfRow (selfWxid : List Nat) (bytesExtra : List Nat) : List Nat :=
  match getWxidFromBytesExtra (decodeBytesExtra bytesExtra) with
  | some w => if w = [] then selfWxid else w
  | none => selfWxid

/-- One row of the MSG store as used by getHistoryMessageList (only the
fields the mapping touches are modelled). -/
structure MsgRow where
  localId : Nat
  strContent : String
  bytesExtra : List Nat

/-- Row mapping of getHistoryMessageList (agent.ts lines 503-511): every
row is returned, enriched with the decoded talker wxid or the fallback. -/
def getHistoryMessageList (selfWxid : List Nat) (rows : List MsgRow) :
    List (MsgRow × List Nat) :=
  rows.map (fun msg => (msg, talkerWxidOfRow selfWxid msg.bytesExtra))

/-
The room-membership decoder and its caller.  decodeRoomData lives in
utils.ts (not among the provided sources); modelled from the spec
(section 4.5): a sequence of member sub-records, decoded in order until a
truncated or malformed record is met, never failing.
-/

/-- The pinned tag opening each member sub-record (empirically-derived
constant, spec sections 1 and 4.5). -/
def memberRecordTag : Nat := 1

/-- Modelled from the spec: recursion core of the room-membership
decoder.  Each well-formed sub-record is (memberRecordTag, length byte,
payload); decoding stops at the first malformed tag or truncated record
and returns the members decoded so far.  The fuel argument (the buffer
length) only makes the recursion structural. -/
def decodeRoomAux : Nat → List Nat → List (List Nat)
  | 0, _ => []
  | _, [] => []
  | _, [_] => []
  | fuel + 1, t :: len :: rest =>
    if t = memberRecordTag ∧ len ≤ rest.length then
      rest.take len :: decodeRoomAux fuel (rest.drop len)
    else []

/-- Modelled from the spec: decodeRoomData (utils.ts) decodes a RoomData
buffer into the ordered list of member identifiers. -/
def decodeRoomData (buf : List Nat) : List (List Nat) :=
  decodeRoomAux buf.length buf

/-- Reference encoder for well-formed member sub-records, used to state
what a buffer with a given member list looks like. -/
def encodeRoomMembers : List (List Nat) → List Nat
  | [] => []
  | m :: ms => memberRecordTag :: m.length :: (m ++ encodeRoomMembers ms)

/-- One row of the ChatRoom join as used by getChatRoomDetailList (only
the fields the mapping touches are modelled). -/
structure RoomRow where
  nickName : String
  reserved2 : String
  roomData : List Nat

/-- Row mapping of getChatRoomDetailList (agent.ts lines 265-274): every
row is returned with ownerUserName = Reserved2 and the decoded member
list. -/
def getChatRoomDetailList (rows : List RoomRow) :
    List (RoomRow × String × List (List Nat)) :=
  rows.map (fun v => (v, v.reserved2, decodeRoomData v.roomData))

/-
Single-record read operations (agent.ts): each runs a query, destructures
the first row (const [data] = ...), and returns undefined when there is no
row.  The query itself is the external relational collaborator; the
functions below take the row set it returned.
-/

/-- One row of the ChatRoomInfo join used by getChatRoomInfo (only the
fields the code touches are modelled). -/
structure ChatRoomInfoRow where
  announcement : String
  nickName : String
  userNameList : String
  displayNameList : String

/-- Result record of getChatRoomInfo. -/
structure ChatRoomInfoResult where
  row : ChatRoomInfoRow
  memberIdList : List String
  displayNameList : List String
  displayNameMap : String → Option String

/-- The displayNameMap construction (agent.ts lines 319-322): a forEach
over memberIdList assigning DisplayNameList[index]; later duplicates
overwrite earlier ones and a missing index yields undefined. -/
def displayMapOf (members names : List String) : String → Option String :=
  members.enum.foldl
    (fun acc p => fun m => if m = p.2 then names.get? p.1 else acc m)
    (fun _ => none)

/-- Translation of getChatRoomInfo (agent.ts lines 281-332): undefined
when the query returned no row, otherwise the first row enriched with the
split member and display-name lists. -/
def getChatRoomInfo (rows : List ChatRoomInfoRow) : Option ChatRoomInfoResult :=
  match rows with
  | [] => none
  | data :: _ =>
    let memberIdList := data.userNameList.splitOn "^G"
    let displayNameList := data.displayNameList.splitOn "^G"
    some ⟨data, memberIdList, displayNameList,
      displayMapOf memberIdList displayNameList⟩

/-- One row of the Contact join used by getContactInfo. -/
structure ContactRow where
  nickName : String
  userName : String
  remark : String
  labelIdList : Option String

/-- Result record of getContactInfo. -/
structure ContactInfoResult where
  row : ContactRow
  tags : List String

/-- Translation of getContactInfo (agent.ts lines 373-391): undefined when
the query returned no row, otherwise the first row enriched with tags =
LabelIDList?.split(",").filter(v => v) ?? []. -/
def getContactInfo (rows : List ContactRow) : Option ContactInfoResult :=
  match rows with
  | [] => none
  | data :: _ =>
    some ⟨data,
      match data.labelIdList with
      | none => []
      | some s => (s.splitOn ",").filter (fun v => !(v == ""))⟩

/-- One row of the TalkerId query used by getTalkerId. -/
structure TalkerIdRow where
  talkerId : String

/-- Translation of getTalkerId (agent.ts lines 445-462): undefined when
the query returned no row, otherwise the first row's TalkerId. -/
def getTalkerId (rows : List TalkerIdRow) : Option String :=
  match rows with
  | [] => none
  | data :: _ => some data.talkerId

/-- One row of the member Contact query used by getChatRoomMembers. -/
structure MemberContactRow where
  nickName : String
  userName : String
  remark : String

/-- Translation of getChatRoomMembers (agent.ts lines 340-367): undefined
when getChatRoomInfo found no room, otherwise the member contact rows each
enriched with DisplayName = displayNameMap[UserName] || "". -/
def getChatRoomMembers (roomRows : List ChatRoomInfoRow)
    (contactRows : List MemberContactRow) :
    Option (List (MemberContactRow × String)) :=
  match getChatRoomInfo roomRows with
  | none => none
  | some info =>
    some (contactRows.map (fun result =>
      (result, (info.displayNameMap result.userName).getD "")))

lemma take_len_append (m rest : List Nat) : (m ++ rest).take m.length = m := by
  induction m with
  | nil => rfl
  | cons a as ih => simp [ih]

lemma drop_len_append (m rest : List Nat) : (m ++ rest).drop m.length = rest := by
  induction m with
  | nil => rfl
  | cons a as ih => simp [ih]

/-- The fuel of decodeRoomAux is irrelevant once it dominates the buffer
length. -/
lemma decodeRoomAux_fuel :
    ∀ (fuel : Nat) (buf : List Nat) (fuel2 : Nat),
      buf.length ≤ fuel → buf.length ≤ fuel2 →
      decodeRoomAux fuel buf = decodeRoomAux fuel2 buf := by
  intro fuel
  induction fuel with
  | zero =>
    intro buf fuel2 h1 h2
    have hb : buf = [] := List.eq_nil_of_length_eq_zero (by omega)
    subst hb
    cases fuel2 <;> rfl
  | succ f ihf =>
    intro buf fuel2 h1 h2
    cases buf with
    | nil => cases fuel2 <;> rfl
    | cons t rest1 =>
      cases rest1 with
      | nil =>
        cases fuel2 with
        | zero => simp at h2
        | succ f2 => rfl
      | cons len rest =>
        cases fuel2 with
        | zero => simp at h2
        | succ f2 =>
          simp only [decodeRoomAux]
          by_cases hc : t = memberRecordTag ∧ len ≤ rest.length
          · rw [if_pos hc, if_pos hc]
            have hlen : (rest.drop len).length ≤ f := by
              simp only [List.length_drop]
              simp only [List.length_cons] at h1
              omega
            have hlen2 : (rest.drop len).length ≤ f2 := by
              simp only [List.length_drop]
              simp only [List.length_cons] at h2
              omega
            rw [ihf (rest.drop len) f2 hlen hlen2]
          · rw [if_neg hc, if_neg hc]

/-- Decoding a buffer that starts with well-formed member records followed
by any remainder on which decoding immediately stops yields exactly the
encoded members, in order. -/
lemma decodeRoomAux_encode :
    ∀ (members : List (List Nat)) (junk : List Nat) (fuel : Nat),
      (encodeRoomMembers members ++ junk).length ≤ fuel →
      decodeRoomData junk = [] →
      decodeRoomAux fuel (encodeRoomMembers members ++ junk) = members := by
  intro members
  induction members with
  | nil =>
    intro junk fuel hfuel hjunk
    simp only [encodeRoomMembers, List.nil_append] at hfuel ⊢
    rw [decodeRoomAux_fuel fuel junk junk.length hfuel (Nat.le_refl _)]
    exact hjunk
  | cons m ms ih =>
    intro junk fuel hfuel hjunk
    cases fuel with
    | zero =>
      simp [encodeRoomMembers] at hfuel
    | succ f =>
      simp only [encodeRoomMembers, List.cons_append, List.append_assoc] at hfuel ⊢
      rw [decodeRoomAux]
      rw [if_pos ⟨rfl, by simp [List.length_append]⟩]
      rw [take_len_append, drop_len_append]
      congr 1
      apply ih junk f ?_ hjunk
      simp only [List.length_cons, List.length_append] at hfuel ⊢
      omega

/-- Claim C1, counterexample.  The claim states that a safe-mode send is
first submitted to the recipient's throttle and only after its admission
to the global limiter.  In the code (agent.ts lines 38-43) the wrapper
returned by the Proxy handler is throttleGlobal(async () =>
throttledForRecipient()), so on the trace of an intercepted sendText call
the global admission happens first: the recipient admission does not
precede the global admission. -/
theorem send_gate_order_violation :
    c1Trace = [Ev.globalAdmit, Ev.recipientAdmit "alice", Ev.execute]
  ∧ ¬ (c1Trace.findIdx (fun e => e == Ev.recipientAdmit "alice")
        < c1Trace.findIdx (fun e => e == Ev.globalAdmit)) := by
  decide

/-- Claim C1, amended.  For every operation classified as a send and
invoked in safe mode, the call is first submitted to the global limiter;
only once the global limiter has admitted it is it submitted to the
recipient's per-recipient throttle; the underlying operation executes only
once both limiters have admitted the call, in that order. -/
theorem send_gate_order (prop recipientId : String) (hp : sendPrefixed prop = true)
    (α : Type) (underlying : List Ev × α) :
    proxyCall true true prop recipientId underlying
      = (Ev.globalAdmit :: Ev.recipientAdmit recipientId :: underlying.1,
         underlying.2) := by
  simp [proxyCall, isIntercepted, hp, throttleWrap]

/-- Witness for send_gate_order at a concrete intercepted call. -/
theorem send_gate_order_witness :
    sendPrefixed "sendText" = true
  ∧ proxyCall true true "sendText" "alice" ([Ev.execute], (0 : Nat))
      = (Ev.globalAdmit :: Ev.recipientAdmit "alice" :: [Ev.execute], 0) :=
  ⟨by decide, send_gate_order "sendText" "alice" (by decide) Nat ([Ev.execute], 0)⟩

/-- Claim C8.  The result of a call through the throttling wrapper is
exactly the underlying transport operation's result; with the result type
instantiated at Except, a transport failure propagates unchanged, and the
throttling layer adds no failure path of its own. -/
theorem send_result_passthrough (safeMode isFunctionProp : Bool)
    (prop recipientId : String) (ε α : Type)
    (underlying : List Ev × Except ε α) :
    (proxyCall safeMode isFunctionProp prop recipientId underlying).2
      = underlying.2 := by
  cases hI : isIntercepted safeMode isFunctionProp prop <;>
    simp [proxyCall, hI, throttleWrap]

/-- Claim C9.  Only operations whose names start with "send" are
intercepted, even in safe mode; forwardMsg, inviteChatRoomMembers,
addChatRoomMembers and removeChatRoomMembers always run unchanged, with
no admission events from either limiter. -/
theorem only_send_named_intercepted :
    (∀ (safeMode isFunctionProp : Bool) (prop : String),
        isIntercepted safeMode isFunctionProp prop = true
          → sendPrefixed prop = true)
  ∧ (∀ (safeMode : Bool) (recipientId : String) (u : List Ev × Nat),
        proxyCall safeMode true "forwardMsg" recipientId u = u)
  ∧ (∀ (safeMode : Bool) (recipientId : String) (u : List Ev × Nat),
        proxyCall safeMode true "inviteChatRoomMembers" recipientId u = u)
  ∧ (∀ (safeMode : Bool) (recipientId : String) (u : List Ev × Nat),
        proxyCall safeMode true "addChatRoomMembers" recipientId u = u)
  ∧ (∀ (safeMode : Bool) (recipientId : String) (u : List Ev × Nat),
        proxyCall safeMode true "removeChatRoomMembers" recipientId u = u) := by
  refine ⟨?_, ?_, ?_, ?_, ?_⟩
  · intro s f p h
    simp only [isIntercepted, Bool.and_eq_true] at h
    exact h.1.2.symm ▸ h.2
  all_goals intro s recipientId u
  all_goals cases s <;> rfl

/-- Witness for only_send_named_intercepted: sendText is intercepted in
safe mode and indeed starts with "send". -/
theorem only_send_named_intercepted_witness :
    isIntercepted true true "sendText" = true ∧ sendPrefixed "sendText" = true :=
  ⟨by decide, only_send_named_intercepted.1 true true "sendText" (by decide)⟩

/-- Claim C5.  Whether send interception is bypassed is fixed at
construction: after any sequence of operations on the agent, the safe
flag still has the value resolved in the constructor, and the
interception decision for any property coincides with the decision taken
from the constructed value. -/
theorem safe_mode_immutable (safeOption : Bool) (ops : List AgentOp)
    (isFunctionProp : Bool) (prop : String) :
    (runOps (construct safeOption) ops).safe = safeOption
  ∧ isIntercepted (runOps (construct safeOption) ops).safe isFunctionProp prop
      = isIntercepted safeOption isFunctionProp prop := by
  have key : ∀ (l : List AgentOp) (st : AgentState), (runOps st l).safe = st.safe := by
    intro l
    induction l with
    | nil => intro st; rfl
    | cons op rest ih =>
      intro st
      rw [runOps, ih]
      cases op with
      | send c => by_cases hs : st.safe <;> simp [applyOp, hs]
      | startTimer t => rfl
      | stopTimer => rfl
      | query => rfl
  refine ⟨key ops (construct safeOption), ?_⟩
  rw [key ops (construct safeOption)]
  rfl

/-- Claim C2, counterexample.  The claim bounds the number of send
EXECUTIONS starting in a 60 s window of the global limiter by 40.  Because
the code gates through the global limiter first and only then through the
per-recipient throttle, a recipient throttle can defer an execution past a
global window boundary: with two sends to "a" arriving at 59999 ms and
forty sends to forty fresh recipients arriving at 60000 ms, 41 executions
start inside the global window [60000, 120000). -/
theorem global_window_execution_overflow :
    (60000 : Nat) % throttleGlobalInterval = 0
  ∧ throttleGlobalLimit <
      countIn throttleGlobalInterval 60000
        ((runSends initSys c2Sends).map (fun e => e.2.2)) := by
  decide

/-- Claim C2, amended.  For every execution history produced by any
sequence of send calls in safe mode and every 60 s window measured from
the global limiter's own window boundaries, at most 40 sends are ADMITTED
BY THE GLOBAL LIMITER within that window (execution starts, which happen
at the later per-recipient admission, can exceed 40 in a window). -/
theorem global_window_admission_bound (sends : List SendCall) (lo : Nat)
    (hlo : lo % throttleGlobalInterval = 0) :
    countIn throttleGlobalInterval lo
        ((runSends initSys sends).map (fun e => e.2.1))
      ≤ throttleGlobalLimit := by
  rw [runSends_global sends initSys]
  have h := fixedWindowStarts_window_bound throttleGlobalLimit throttleGlobalInterval
    (by decide) (by decide) (sends.map (fun c => c.arrival)) 0 0 lo rfl
    (by decide) hlo
  have hz : (if lo = 0 then 0 else 0) = (0 : Nat) := by split <;> rfl
  show countIn throttleGlobalInterval lo
      (fixedWindowStarts throttleGlobalLimit throttleGlobalInterval (0, 0)
        (sends.map (fun c => c.arrival))) ≤ throttleGlobalLimit
  omega

/-- Witness for global_window_admission_bound at one send and the window
starting at 60000 ms. -/
theorem global_window_admission_bound_witness :
    (60000 : Nat) % throttleGlobalInterval = 0
  ∧ countIn throttleGlobalInterval 60000
      ((runSends initSys [⟨"alice", 0, 1500⟩]).map (fun e => e.2.1))
      ≤ throttleGlobalLimit :=
  ⟨by decide, global_window_admission_bound [⟨"alice", 0, 1500⟩] 60000 (by decide)⟩

/-- Claim C3, counterexample.  The claim states that consecutive execution
start times for a recipient differ by at least the recipient's assigned
window duration.  With recipient "a" assigned the duration 1000 ms and
sends arriving at 0, 1500 and 2000 ms, the executions start at 0, 1500 and
2000 ms: the last two differ by 500 ms < 1000 ms, because a fixed-window
limiter only caps starts per window and does not space them. -/
theorem recipient_spacing_violation :
    firstDrawFor "a" c3Sends = some 1000
  ∧ execsFor "a" (runSends initSys c3Sends) = [0, 1500, 2000]
  ∧ spacedBy 1000 (execsFor "a" (runSends initSys c3Sends)) = false := by
  decide

/-- Claim C3, amended.  For every recipient r with assigned window
duration d (fixed in [1000 ms, 3000 ms) at first use and never re-drawn)
and every window [lo, lo + d) on r's own boundary grid, at most one
execution for r starts within that window; consecutive executions
therefore start in distinct windows of r's limiter. -/
theorem recipient_window_execution_bound (sends : List SendCall) (r : String)
    (d : Nat) (hfd : firstDrawFor r sends = some d)
    (hd1 : 1000 ≤ d) (hd2 : d < 3000) (lo : Nat) (hlo : lo % d = 0) :
    countIn d lo (execsFor r (runSends initSys sends)) ≤ 1 := by
  rw [execsFor_runSends_none sends initSys r d rfl hfd]
  have h := fixedWindowStarts_window_bound 1 d (by decide) (by omega)
    (admitsFor r initSys.globalSt sends) 0 0 lo rfl (by decide) hlo
  have hz : (if lo = 0 then 0 else 0) = (0 : Nat) := by split <;> rfl
  omega

/-- Witness for recipient_window_execution_bound at one send to "alice"
with drawn duration 1500 ms and the window starting at 0. -/
theorem recipient_window_execution_bound_witness :
    firstDrawFor "alice" [⟨"alice", 0, 1500⟩] = some 1500
  ∧ countIn 1500 0 (execsFor "alice" (runSends initSys [⟨"alice", 0, 1500⟩])) ≤ 1 :=
  ⟨by decide, recipient_window_execution_bound [⟨"alice", 0, 1500⟩] "alice" 1500
      (by decide) (by decide) (by decide) 0 (by decide)⟩

/-- Claim C4.  The first registry lookup for a recipient creates exactly
one throttle with capacity 1 and the freshly drawn window duration (the
randomInt(1000, 3000) value, so in [1000 ms, 3000 ms)), caches it, and
leaves every other entry untouched; any later lookup for the same
recipient returns the cached throttle unchanged whatever value a new draw
would have; and across any further sequence of sends the entry survives
with the same capacity and window duration (only its limiter state
evolves), so it is neither re-drawn nor evicted. -/
theorem throttle_registry_correct :
    (∀ (recs : String → Option RThrottle) (r : String) (draw : Nat),
        recs r = none → 1000 ≤ draw → draw < 3000 →
          (getThrottleForRecipient recs r draw).2.limit = 1
        ∧ (getThrottleForRecipient recs r draw).2.interval = draw
        ∧ 1000 ≤ (getThrottleForRecipient recs r draw).2.interval
        ∧ (getThrottleForRecipient recs r draw).2.interval < 3000
        ∧ (getThrottleForRecipient recs r draw).1 r
            = some (getThrottleForRecipient recs r draw).2
        ∧ (∀ x, x ≠ r → (getThrottleForRecipient recs r draw).1 x = recs x))
  ∧ (∀ (recs : String → Option RThrottle) (r : String) (rt : RThrottle) (d1 d2 : Nat),
        recs r = some rt →
          getThrottleForRecipient recs r d1 = (recs, rt)
        ∧ getThrottleForRecipient recs r d2 = (recs, rt))
  ∧ (∀ (sys : AgentSys) (sends : List SendCall) (r : String) (rt : RThrottle),
        sys.recips r = some rt →
          ∃ st2, (runSendsSt sys sends).recips r
            = some ⟨rt.limit, rt.interval, st2⟩) := by
  refine ⟨?_, ?_, ?_⟩
  · intro recs r draw h h1 h2
    refine ⟨?_, ?_, ?_, ?_, ?_, ?_⟩
    · simp [getThrottleForRecipient, h]
    · simp [getThrottleForRecipient, h]
    · simp [getThrottleForRecipient, h]
      omega
    · simp [getThrottleForRecipient, h]
      omega
    · simp [getThrottleForRecipient, h]
    · intro x hx
      simp [getThrottleForRecipient, h, hx]
  · intro recs r rt d1 d2 h
    constructor <;> simp [getThrottleForRecipient, h]
  · intro sys sends r rt h
    exact runSendsSt_preserves sends sys r rt h

/-- Witness for throttle_registry_correct: a fresh creation for "alice"
with draw 2000, a second lookup that ignores a new draw, and survival of
the entry across one further send. -/
theorem throttle_registry_correct_witness :
    (getThrottleForRecipient (fun _ => none) "alice" 2000).2.limit = 1
  ∧ (getThrottleForRecipient (fun _ => none) "alice" 2000).2.interval = 2000
  ∧ getThrottleForRecipient
      (fun x => if x = "alice" then some ⟨1, 2000, (0, 0)⟩ else none) "alice" 999
      = ((fun x => if x = "alice" then some ⟨1, 2000, (0, 0)⟩ else none),
         ⟨1, 2000, (0, 0)⟩)
  ∧ (∃ st2,
      (runSendsSt ⟨(0, 0), fun x => if x = "alice" then some ⟨1, 2000, (0, 0)⟩ else none⟩
        [⟨"alice", 5, 7⟩]).recips "alice" = some ⟨1, 2000, st2⟩) :=
  ⟨(throttle_registry_correct.1 (fun _ => none) "alice" 2000 rfl
      (by omega) (by omega)).1,
   (throttle_registry_correct.1 (fun _ => none) "alice" 2000 rfl
      (by omega) (by omega)).2.1,
   (throttle_registry_correct.2.1
      (fun x => if x = "alice" then some ⟨1, 2000, (0, 0)⟩ else none)
      "alice" ⟨1, 2000, (0, 0)⟩ 999 999 (by simp)).1,
   throttle_registry_correct.2.2
      ⟨(0, 0), fun x => if x = "alice" then some ⟨1, 2000, (0, 0)⟩ else none⟩
      [⟨"alice", 5, 7⟩] "alice" ⟨1, 2000, (0, 0)⟩ (by simp)⟩

/-- Claim C6.  The sender-extra decode of an empty, truncated or
sender-field-free buffer yields an absent sender — decoding is a total
function and never fails — and the caller of getHistoryMessageList then
substitutes its own account identifier as the sender while still
returning every row. -/
theorem sender_extra_absent_fallback :
    getWxidFromBytesExtra (decodeBytesExtra []) = none
  ∧ getWxidFromBytesExtra (decodeBytesExtra [9]) = none
  ∧ getWxidFromBytesExtra (decodeBytesExtra [wxidFieldTag, 5, 0]) = none
  ∧ getWxidFromBytesExtra (decodeBytesExtra [2, 1, 7]) = none
  ∧ (∀ (buf selfWxid : List Nat),
        getWxidFromBytesExtra (decodeBytesExtra buf) = none →
          talkerWxidOfRow selfWxid buf = selfWxid)
  ∧ (∀ (selfWxid : List Nat) (rows : List MsgRow),
        (getHistoryMessageList selfWxid rows).length = rows.length) := by
  refine ⟨by decide, by decide, by decide, by decide, ?_, ?_⟩
  · intro buf selfWxid h
    simp [talkerWxidOfRow, h]
  · intro selfWxid rows
    simp [getHistoryMessageList]

/-- Witness for sender_extra_absent_fallback: the empty buffer decodes to
an absent sender and the caller falls back to its own identifier. -/
theorem sender_extra_absent_fallback_witness :
    getWxidFromBytesExtra (decodeBytesExtra []) = none
  ∧ talkerWxidOfRow [7, 7] [] = [7, 7] :=
  ⟨by decide, sender_extra_absent_fallback.2.2.2.2.1 [] [7, 7] (by decide)⟩

/-- Claim C7.  The room-membership decode returns exactly the member
identifiers of the well-formed records preceding the first truncated or
malformed point, in encounter order (a total function, never an error; at
minimum the empty sequence), and the list-returning read path
getChatRoomDetailList returns one row per input row whatever the
buffers contain. -/
theorem room_members_decode_robust (members : List (List Nat)) (junk : List Nat)
    (hjunk : decodeRoomData junk = []) :
    decodeRoomData (encodeRoomMembers members ++ junk) = members
  ∧ (∀ rows : List RoomRow, (getChatRoomDetailList rows).length = rows.length) := by
  constructor
  · exact decodeRoomAux_encode members junk
      (encodeRoomMembers members ++ junk).length (Nat.le_refl _) hjunk
  · intro rows
    simp [getChatRoomDetailList]

/-- Witness for room_members_decode_robust: two valid member records
followed by a malformed remainder decode to exactly the two members. -/
theorem room_members_decode_robust_witness :
    decodeRoomData [9, 9, 9] = []
  ∧ decodeRoomData (encodeRoomMembers [[1], [2]] ++ [9, 9, 9]) = [[1], [2]] :=
  ⟨by decide, (room_members_decode_robust [[1], [2]] [9, 9, 9] (by decide)).1⟩

/-- Claim C10.  Each single-record read operation returns an absent value
(undefined) when its underlying query produced no row: getChatRoomInfo,
getContactInfo, getTalkerId, and consequently getChatRoomMembers. -/
theorem empty_query_absent :
    getChatRoomInfo [] = none
  ∧ getContactInfo [] = none
  ∧ getTalkerId [] = none
  ∧ (∀ contactRows : List MemberContactRow,
        getChatRoomMembers [] contactRows = none) :=
  ⟨rfl, rfl, rfl, fun _ => rfl⟩
